import Mathlib

/-!
# Verification of the quickcrop crop-region solver

Shallow embedding of `src/utils.py` (the geometric crop-region solver of the
quickcrop repository): `_squarify`, `_interior_round` and `minimal_rect`.

Coordinates are modelled as rationals (`ℚ`), which faithfully represent every
finite float input without rounding noise; Python's `math`-style floor/ceil
(`np.floor` / `np.ceil` followed by `int(...)`) become `Int.floor` / `Int.ceil`.
The scipy `ConvexHull` object is external library code; its two uses are
modelled as follows:

* `hull.vertices` (the hull vertex indices, in hull order) is computed by an
  Andrew monotone-chain implementation, `hullVertexIndices`;
* the final incremental sanity check (`hull.add_points(cropped)` followed by
  `np.all(hull.vertices == verts)`) succeeds exactly when every added point
  already lies in the convex hull of the original points, so it is modelled by
  the decidable hull-membership test `inHull` (Caratheodory: a point of the
  plane lies in the hull of a finite set iff it lies in the hull of some three
  of its points).
-/

namespace Quickcrop

attribute [local semireducible] Rat.add Rat.sub Rat.mul Rat.inv Rat.ofScientific

/-- A 2-D point, `(x, y)`, image convention (y grows downward). -/
abbrev Pt := ℚ × ℚ

/-- Floor of a rational: `int(np.floor(x))`.  `Rat.floor` (rather than the
`Int.floor` notation) keeps the definition kernel-computable; the two agree,
see `ratFloor_eq`. -/
def qfloor (x : ℚ) : ℤ := Rat.floor x

/-- Ceiling of a rational: `int(np.ceil(x))`, computed as `-⌊-x⌋`; agrees with
`Int.ceil`, see `qceil_eq`. -/
def qceil (x : ℚ) : ℤ := -qfloor (-x)

/-- Cross product of `b - o` and `c - o`; positive iff `o → b → c` is a left
turn (in standard orientation). -/
def cross (o b c : Pt) : ℚ :=
  (b.1 - o.1) * (c.2 - o.2) - (b.2 - o.2) * (c.1 - o.1)

/-- `p` lies on the closed segment from `a` to `b`. -/
def onSeg (a b p : Pt) : Bool :=
  decide (cross a b p = 0) &&
  decide (min a.1 b.1 ≤ p.1) && decide (p.1 ≤ max a.1 b.1) &&
  decide (min a.2 b.2 ≤ p.2) && decide (p.2 ≤ max a.2 b.2)

/-- `p` lies in the convex hull of `{a, b, c}` (a closed triangle, possibly
degenerate). -/
def inTri (a b c p : Pt) : Bool :=
  if cross a b c ≠ 0 then
    let d1 := cross a b p
    let d2 := cross b c p
    let d3 := cross c a p
    (decide (0 ≤ d1) && decide (0 ≤ d2) && decide (0 ≤ d3)) ||
    (decide (d1 ≤ 0) && decide (d2 ≤ 0) && decide (d3 ≤ 0))
  else
    onSeg a b p || onSeg b c p || onSeg a c p

/-- `p` lies in the convex hull of the points of `pts`: by Caratheodory's
theorem (in the plane), this holds iff `p` lies in the hull of some three of
them.  This is the model of membership in the scipy `ConvexHull`. -/
def inHull (pts : List Pt) (p : Pt) : Bool :=
  (pts.sublistsLen 3).any fun t =>
    match t with
    | [a, b, c] => inTri a b c p
    | _ => false

/-- Lexicographic order on indexed points, used to sort before the
monotone-chain hull construction. -/
def lexLe (a b : Nat × Pt) : Bool :=
  decide (a.2.1 < b.2.1) ||
  (decide (a.2.1 = b.2.1) && decide (a.2.2 ≤ b.2.2))

/-- Push a point onto a hull chain (stack with its head as the top), popping
points that no longer make a strict left turn. -/
def chainPush : List (Nat × Pt) → Nat × Pt → List (Nat × Pt)
  | b :: a :: rest, z =>
      if cross a.2 b.2 z.2 ≤ 0 then chainPush (a :: rest) z
      else z :: b :: a :: rest
  | l, z => z :: l

/-- Build one hull chain from a list of indexed points. -/
def buildChain (l : List (Nat × Pt)) : List (Nat × Pt) :=
  l.foldl chainPush []

/-- Indices of the convex-hull vertices of `pts`, in counterclockwise hull
order (Andrew monotone chain).  Models `scipy.spatial.ConvexHull(...).vertices`;
no theorem below depends on the exact vertex order it returns, because the only
use the solver makes of it (the convexity check) compares a list with itself. -/
def hullVertexIndices (pts : List Pt) : List Nat :=
  let indexed := (List.range pts.length).map fun i => (i, pts.getD i (0, 0))
  let sortedPts := indexed.insertionSort fun a b => lexLe a b = true
  let lower := (buildChain sortedPts).reverse
  let upper := (buildChain sortedPts.reverse).reverse
  (lower.dropLast ++ upper.dropLast).map Prod.fst

/-- Python's `c in s` for a single-character needle `c`. -/
def strContains (s : String) (c : Char) : Bool := s.data.contains c

/-- The solver's vertical bias check:
`["t" in bias, "b" in bias].count(True) == 1`. -/
def vertBiasOk (bias : String) : Bool :=
  [strContains bias 't', strContains bias 'b'].count true == 1

/-- The solver's horizontal bias check:
`["l" in bias, "r" in bias].count(True) == 1`. -/
def horizBiasOk (bias : String) : Bool :=
  [strContains bias 'l', strContains bias 'r'].count true == 1

/-- Both bias checks of `minimal_rect` pass. -/
def codeBiasValid (bias : String) : Bool :=
  vertBiasOk bias && horizBiasOk bias

/-- The error outcomes of `minimal_rect`, named as in the specification:
`UnsupportedPointCount` is the `NotImplementedError`, `InvalidBiasSpec` the
bias `ValueError`, `NonConvexRegion` the convexity `ValueError`,
`BoundsViolation` the sanity-check `RuntimeError`. -/
inductive QCError
  | unsupportedPointCount
  | invalidBiasSpec
  | nonConvexRegion
  | boundsViolation
  deriving DecidableEq, Repr

instance {ε α : Type} [DecidableEq ε] [DecidableEq α] :
    DecidableEq (Except ε α) := fun x y =>
  match x, y with
  | .ok a, .ok b =>
      if h : a = b then .isTrue (by rw [h])
      else .isFalse fun hh => h (Except.ok.inj hh)
  | .error e, .error f =>
      if h : e = f then .isTrue (by rw [h])
      else .isFalse fun hh => h (Except.error.inj hh)
  | .ok _, .error _ => .isFalse fun hh => Except.noConfusion hh
  | .error _, .ok _ => .isFalse fun hh => Except.noConfusion hh

/-- The convexity check of `minimal_rect`:

    verts = hull.vertices
    sorted_points = [list(points[i]) for i in verts]
    hull_vertices = [list(hull.points[i]) for i in verts]
    if not sorted_points == hull_vertices: raise ValueError(...)

`hull.points` is exactly the input point array, so both lists select the same
entries of the same list. -/
def convexityCheckFails (pts : List Pt) : Bool :=
  let hullPoints := pts
  let verts := hullVertexIndices pts
  let sorted_points := verts.map fun i => pts.getD i (0, 0)
  let hull_vertices := verts.map fun i => hullPoints.getD i (0, 0)
  !(sorted_points == hull_vertices)

/-- `_squarify(points, bias)` from `src/utils.py`: crop an axis-aligned
rectangle (clockwise from top-left) down to a square, keeping the sides named
by `bias`.  Mirrors the source exactly, including the `elif` for the vertical
pair and the two independent `if`s for the horizontal pair (each reading the
original `points`). -/
def squarify (points : List Pt) (bias : String) : List Pt :=
  match points with
  | [p0, p1, p2, p3] =>
    let vlen := p3.2 - p0.2
    let hlen := p1.1 - p0.1
    if hlen < vlen then
      if strContains bias 't' then
        [p0, p1, (p2.1, p1.2 + hlen), (p3.1, p0.2 + hlen)]
      else if strContains bias 'b' then
        [(p0.1, p3.2 - hlen), (p1.1, p2.2 - hlen), p2, p3]
      else [p0, p1, p2, p3]
    else
      let q1 := if strContains bias 'l' then ((p0.1 + vlen, p1.2) : Pt) else p1
      let q2 := if strContains bias 'l' then ((p3.1 + vlen, p2.2) : Pt) else p2
      let q0 := if strContains bias 'r' then ((p1.1 - vlen, p0.2) : Pt) else p0
      let q3 := if strContains bias 'r' then ((p2.1 - vlen, p3.2) : Pt) else p3
      [q0, q1, q2, q3]
  | other => other

/-- `_interior_round(points)` from `src/utils.py`: round a rectangle's
coordinates toward its interior.  Note the source's
`br[0] = int(np.floor(tr[0]))`: the bottom-right x is the floor of the
(already floored) top-right x, not of the bottom-right x; the model reproduces
this. -/
def interior_round (points : List Pt) : List (ℤ × ℤ) :=
  match points with
  | [p0, p1, p2, p3] =>
    let tlx : ℤ := qceil p0.1
    let blx : ℤ := qceil p3.1
    let trx : ℤ := qfloor p1.1
    let brx : ℤ := qfloor (trx : ℚ)
    let tly : ℤ := qceil p0.2
    let try' : ℤ := qceil p1.2
    let bly : ℤ := qfloor p3.2
    let bry : ℤ := qfloor p2.2
    [(tlx, tly), (trx, try'), (brx, bry), (blx, bly)]
  | _ => []

/-- The pre-squarify minimal bounding rectangle of `minimal_rect`:

    sorted_x, sorted_y = sorted(xs), sorted(ys)
    [(sorted_x[1], sorted_y[1]), (sorted_x[-2], sorted_y[1]),
     (sorted_x[-2], sorted_y[-2]), (sorted_x[1], sorted_y[-2])]

Python's `sorted` on numbers is modelled by `List.insertionSort (· ≤ ·)`
(any stable ascending sort of rationals yields the same value list). -/
def minimalRectFormula (pts : List Pt) : List Pt :=
  let sorted_x := (pts.map Prod.fst).insertionSort (· ≤ ·)
  let sorted_y := (pts.map Prod.snd).insertionSort (· ≤ ·)
  let x1 := sorted_x.getD 1 0
  let x2 := sorted_x.getD (sorted_x.length - 2) 0
  let y1 := sorted_y.getD 1 0
  let y2 := sorted_y.getD (sorted_y.length - 2) 0
  [(x1, y1), (x2, y1), (x2, y2), (x1, y2)]

/-- The integer rectangle `minimal_rect` computes before its final sanity
check (`cropped` in the source). -/
def croppedValue (pts : List Pt) (bias : String) (square : Bool) :
    List (ℤ × ℤ) :=
  if square then interior_round (squarify (minimalRectFormula pts) bias)
  else interior_round (minimalRectFormula pts)

/-- The final sanity check of `minimal_rect`: `hull.add_points(cropped)`
followed by `np.all(hull.vertices == verts)`.  The incremental hull's vertex
list is unchanged exactly when every added point already lies in the convex
hull of the original points, which is what this models. -/
def hullCheckPasses (pts : List Pt) (cropped : List (ℤ × ℤ)) : Bool :=
  cropped.all fun c => inHull pts ((c.1 : ℚ), (c.2 : ℚ))

/-- `minimal_rect(points, bias, square)` from `src/utils.py`.  Returns the
integer crop rectangle or the error raised. -/
def minimal_rect (pts : List Pt) (bias : String) (square : Bool) :
    Except QCError (List (ℤ × ℤ)) :=
  if pts.dedup.length ≠ 4 then .error .unsupportedPointCount
  else if vertBiasOk bias = false then .error .invalidBiasSpec
  else if horizBiasOk bias = false then .error .invalidBiasSpec
  else if convexityCheckFails pts then .error .nonConvexRegion
  else if hullCheckPasses pts (croppedValue pts bias square) then
    .ok (croppedValue pts bias square)
  else .error .boundsViolation

/-- The bias-string grammar as the specification words it: the string must
contain exactly one vertical token (`'t'` or `'b'`) and exactly one horizontal
token (`'l'` or `'r'`) — counting occurrences, so each required token is
present exactly once. -/
def biasGrammar (bias : String) : Bool :=
  (bias.data.count 't' + bias.data.count 'b' == 1) &&
  (bias.data.count 'l' + bias.data.count 'r' == 1)

/-- `v` is a 2nd-smallest value of the list `l`: it occurs in `l`, at most one
entry is strictly below it, and at least two entries are at or below it. -/
def isSecondSmallest (l : List ℚ) (v : ℚ) : Prop :=
  v ∈ l ∧ l.countP (fun u => decide (u < v)) ≤ 1 ∧
    2 ≤ l.countP (fun u => decide (u ≤ v))

/-- `v` is a 2nd-largest value of the list `l`. -/
def isSecondLargest (l : List ℚ) (v : ℚ) : Prop :=
  v ∈ l ∧ l.countP (fun u => decide (v < u)) ≤ 1 ∧
    2 ≤ l.countP (fun u => decide (v ≤ u))

/-- The returned rectangle is an exact square, measured as the claim does:
`topRight.x - topLeft.x == bottomLeft.y - topLeft.y`. -/
def isSquareRect (r : List (ℤ × ℤ)) : Bool :=
  match r with
  | [p0, p1, _, p3] => p1.1 - p0.1 == p3.2 - p0.2
  | _ => false

/-! ## Helper lemmas -/

/-- `qfloor` agrees with the mathematical floor. -/
theorem ratFloor_eq (q : ℚ) : qfloor q = ⌊q⌋ := by
  rw [qfloor, Rat.floor_def', Rat.floor_def]

/-- `qceil` agrees with the mathematical ceiling. -/
theorem qceil_eq (q : ℚ) : qceil q = ⌈q⌉ := by
  rw [qceil, ratFloor_eq, Int.floor_neg, neg_neg]

/-- Flooring an integer changes nothing. -/
theorem qfloor_intCast (z : ℤ) : qfloor (z : ℚ) = z := by
  rw [ratFloor_eq, Int.floor_intCast]

/-- A passing vertical bias check means exactly one of `'t'`, `'b'` occurs. -/
theorem vert_cases (bias : String) (hv : vertBiasOk bias = true) :
    (strContains bias 't' = true ∧ strContains bias 'b' = false) ∨
    (strContains bias 't' = false ∧ strContains bias 'b' = true) := by
  unfold vertBiasOk at hv
  cases ht : strContains bias 't' <;> cases hb : strContains bias 'b' <;>
    simp [ht, hb] at hv ⊢

/-- A passing horizontal bias check means exactly one of `'l'`, `'r'` occurs. -/
theorem horiz_cases (bias : String) (hh : horizBiasOk bias = true) :
    (strContains bias 'l' = true ∧ strContains bias 'r' = false) ∨
    (strContains bias 'l' = false ∧ strContains bias 'r' = true) := by
  unfold horizBiasOk at hh
  cases hl : strContains bias 'l' <;> cases hr : strContains bias 'r' <;>
    simp [hl, hr] at hh ⊢

/-- The convexity check compares a list with itself, so it never fails. -/
theorem convexityCheckFails_eq_false (pts : List Pt) :
    convexityCheckFails pts = false := by
  unfold convexityCheckFails
  simp

/-- Inversion on a successful run of `minimal_rect`: all input checks passed,
the hull check passed, and the result is `croppedValue`. -/
theorem minimal_rect_ok_inversion (pts : List Pt) (bias : String)
    (square : Bool) (r : List (ℤ × ℤ))
    (h : minimal_rect pts bias square = .ok r) :
    pts.dedup.length = 4 ∧ vertBiasOk bias = true ∧ horizBiasOk bias = true ∧
    hullCheckPasses pts (croppedValue pts bias square) = true ∧
    r = croppedValue pts bias square := by
  unfold minimal_rect at h
  split_ifs at h with h1 h2 h3 h4 h5
  exact ⟨not_ne_iff.mp h1, by simpa using h2, by simpa using h3,
    h5, (Except.ok.inj h).symm⟩

/-- When the three input checks pass, `minimal_rect` reduces to the final
hull check on `croppedValue`. -/
theorem minimal_rect_checks_passed (pts : List Pt) (bias : String)
    (square : Bool) (h4 : pts.dedup.length = 4)
    (hv : vertBiasOk bias = true) (hh : horizBiasOk bias = true) :
    minimal_rect pts bias square =
      if hullCheckPasses pts (croppedValue pts bias square)
      then .ok (croppedValue pts bias square)
      else .error .boundsViolation := by
  unfold minimal_rect
  rw [if_neg (not_ne_iff.mpr h4), if_neg (by simp [hv]), if_neg (by simp [hh]),
    if_neg (by simp [convexityCheckFails_eq_false])]

/-- `minimalRectFormula` always produces an axis-aligned clockwise rectangle
shape. -/
theorem minimalRectFormula_shape (pts : List Pt) :
    ∃ x1 x2 y1 y2 : ℚ,
      minimalRectFormula pts = [(x1, y1), (x2, y1), (x2, y2), (x1, y2)] :=
  ⟨_, _, _, _, rfl⟩

/-- On an axis-aligned clockwise rectangle, `squarify` with a valid bias
returns an axis-aligned clockwise rectangle with equal side lengths. -/
theorem squarify_square_sides (x1 x2 y1 y2 : ℚ) (bias : String)
    (hv : vertBiasOk bias = true) (hh : horizBiasOk bias = true) :
    ∃ a b c d : ℚ,
      squarify [(x1, y1), (x2, y1), (x2, y2), (x1, y2)] bias =
        [(a, c), (b, c), (b, d), (a, d)] ∧ b - a = d - c := by
  simp only [squarify]
  by_cases hlt : x2 - x1 < y2 - y1
  · rw [if_pos hlt]
    rcases vert_cases bias hv with ⟨ht, _⟩ | ⟨ht, hb⟩
    · rw [if_pos ht]
      exact ⟨x1, x2, y1, y1 + (x2 - x1), rfl, by ring⟩
    · rw [if_neg (by simp [ht]), if_pos hb]
      exact ⟨x1, x2, y2 - (x2 - x1), y2, rfl, by ring⟩
  · rw [if_neg hlt]
    rcases horiz_cases bias hh with ⟨hl, hr⟩ | ⟨hl, hr⟩
    · refine ⟨x1, x1 + (y2 - y1), y1, y2, ?_, by ring⟩
      simp [hl, hr]
    · refine ⟨x2 - (y2 - y1), x2, y1, y2, ?_, by ring⟩
      simp [hl, hr]

/-- `interior_round` on an axis-aligned clockwise rectangle: left and top
edges are rounded up, right and bottom edges are rounded down. -/
theorem interior_round_rect (a b c d : ℚ) :
    interior_round [(a, c), (b, c), (b, d), (a, d)] =
      [(qceil a, qceil c), (qfloor b, qceil c),
       (qfloor b, qfloor d), (qceil a, qfloor d)] := by
  unfold interior_round
  simp [qfloor_intCast]


/-- A list of length 4 is a literal 4-element list. -/
theorem exists_four_of_length {α : Type} {l : List α} (h : l.length = 4) :
    ∃ a b c d, l = [a, b, c, d] :=
  match l, h with
  | [a, b, c, d], _ => ⟨a, b, c, d, rfl⟩

/-- Sorting a 4-element list and taking indices 1 and 2 yields a 2nd-smallest
and a 2nd-largest value of the list, in order. -/
theorem second_extremes_of_sort (l : List ℚ) (h : l.length = 4) :
    isSecondSmallest l ((l.insertionSort (· ≤ ·)).getD 1 0) ∧
    isSecondLargest l ((l.insertionSort (· ≤ ·)).getD 2 0) ∧
    (l.insertionSort (· ≤ ·)).getD 1 0 ≤
      (l.insertionSort (· ≤ ·)).getD 2 0 := by
  have hperm : List.Perm (l.insertionSort (· ≤ ·)) l :=
    List.perm_insertionSort _ l
  have hsort : List.Sorted (· ≤ ·) (l.insertionSort (· ≤ ·)) :=
    List.sorted_insertionSort _ l
  have hlen : (l.insertionSort (· ≤ ·)).length = 4 := by
    rw [hperm.length_eq, h]
  obtain ⟨a, b, c, d, hs⟩ := exists_four_of_length hlen
  rw [hs] at hperm hsort ⊢
  rw [show (([a, b, c, d] : List ℚ).getD 1 0) = b from rfl,
    show (([a, b, c, d] : List ℚ).getD 2 0) = c from rfl]
  rw [List.sorted_cons, List.sorted_cons, List.sorted_cons] at hsort
  obtain ⟨ha, hb, hc, -⟩ := hsort
  have hab : a ≤ b := ha b (by simp)
  have hbc : b ≤ c := hb c (by simp)
  have hbd : b ≤ d := hb d (by simp)
  have hcd : c ≤ d := hc d (by simp)
  have hac : a ≤ c := hab.trans hbc
  refine ⟨⟨hperm.subset (by simp), ?_, ?_⟩,
    ⟨hperm.subset (by simp), ?_, ?_⟩, hbc⟩
  · rw [← hperm.countP_eq]
    simp only [List.countP_cons, List.countP_nil, decide_eq_true_eq]
    split_ifs <;> first | omega | linarith
  · rw [← hperm.countP_eq]
    simp only [List.countP_cons, List.countP_nil, decide_eq_true_eq]
    split_ifs <;> first | omega | linarith
  · rw [← hperm.countP_eq]
    simp only [List.countP_cons, List.countP_nil, decide_eq_true_eq]
    split_ifs <;> first | omega | linarith
  · rw [← hperm.countP_eq]
    simp only [List.countP_cons, List.countP_nil, decide_eq_true_eq]
    split_ifs <;> first | omega | linarith

/-! ## Claim theorems -/

/-- C1: the claim says an input of 4 distinct points with one point strictly
inside the triangle of the other three fails with `NonConvexRegion`.  In the
code the convexity check compares the hull-ordered point sublist with itself
(`hull.points` is the input array), so it can never fail: for the concrete
interior-point input `[(0,0), (10,0), (0,10), (1,1)]` the solver returns a
rectangle instead of raising `NonConvexRegion`. -/
theorem convexity_check_dead :
    (∀ (pts : List Pt) (bias : String) (square : Bool),
      minimal_rect pts bias square ≠ .error .nonConvexRegion) ∧
    minimal_rect [(0,0), (10,0), (0,10), (1,1)] "tl" false =
      .ok [(0,0), (1,0), (1,1), (0,1)] := by
  refine ⟨fun pts bias square => ?_, by decide⟩
  unfold minimal_rect
  split_ifs with h1 h2 h3 h4 h5 <;> simp_all [convexityCheckFails_eq_false]

/-- C6: for the points `{(0,0), (10,0), (10,5), (0,5)}` with `square = true`,
bias `"tl"` yields the square `(0,0),(5,0),(5,5),(0,5)` and bias `"br"`
yields the square `(5,0),(10,0),(10,5),(5,5)`. -/
theorem minimal_rect_concrete_scenarios :
    minimal_rect [(0,0), (10,0), (10,5), (0,5)] "tl" true =
      .ok [(0,0), (5,0), (5,5), (0,5)] ∧
    minimal_rect [(0,0), (10,0), (10,5), (0,5)] "br" true =
      .ok [(5,0), (10,0), (10,5), (5,5)] := by
  exact ⟨by decide, by decide⟩

/-- C2 counterexample: for the convex rectangle input
`{(0.5,0), (2.5,0), (2.5,3), (0.5,3)}` with bias `"tl"` and `square = true`,
the solver succeeds but the returned integer rectangle has width 1 and
height 2, so it is not a square: interior rounding after squarification
breaks exact squareness for non-integer coordinates. -/
theorem minimal_rect_square_not_exact :
    minimal_rect [(0.5,0), (2.5,0), (2.5,3), (0.5,3)] "tl" true =
      .ok [(1,0), (2,0), (2,2), (1,2)] ∧
    isSquareRect [(1,0), (2,0), (2,2), (1,2)] = false := by
  exact ⟨by decide, by decide⟩

/-- C4 counterexample: a list of 5 points with one duplicate has exactly 4
distinct points, so the solver does not raise `UnsupportedPointCount`: it
returns a rectangle.  The length check is on the deduplicated set only. -/
theorem minimal_rect_five_points_accepted :
    ([((0:ℚ),(0:ℚ)), (1,0), (1,1), (0,1), (0,0)] : List Pt).length = 5 ∧
    minimal_rect [(0,0), (1,0), (1,1), (0,1), (0,0)] "tl" false =
      .ok [(0,0), (1,0), (1,1), (0,1)] := by
  exact ⟨by decide, by decide⟩

/-- C8 counterexample: the bias string `"ttl"` contains the vertical token
`'t'` twice, violating the claimed exactly-one-occurrence grammar, yet the
solver accepts it (its check only tests which tokens are present as
substrings): the call returns a rectangle instead of `InvalidBiasSpec`. -/
theorem bias_grammar_violation_accepted :
    biasGrammar "ttl" = false ∧
    minimal_rect [(0,0), (10,0), (10,5), (0,5)] "ttl" false =
      .ok [(0,0), (10,0), (10,5), (0,5)] := by
  exact ⟨by decide, by decide⟩

/-- C3: whenever the solver returns a rectangle, every corner of it lies in
the convex hull of the input points; and when the input checks pass but some
corner of the computed integer rectangle lies outside the hull, the solver
fails with `BoundsViolation`. -/
theorem minimal_rect_result_in_hull (pts : List Pt) (bias : String)
    (square : Bool) :
    (∀ r, minimal_rect pts bias square = .ok r →
      ∀ c ∈ r, inHull pts ((c.1 : ℚ), (c.2 : ℚ)) = true) ∧
    (pts.dedup.length = 4 → vertBiasOk bias = true → horizBiasOk bias = true →
      hullCheckPasses pts (croppedValue pts bias square) = false →
      minimal_rect pts bias square = .error .boundsViolation) := by
  constructor
  · intro r h c hc
    obtain ⟨-, -, -, hpass, hr⟩ := minimal_rect_ok_inversion pts bias square r h
    subst hr
    exact List.all_eq_true.mp hpass c hc
  · intro h4 hv hh hfail
    rw [minimal_rect_checks_passed pts bias square h4 hv hh, hfail]
    simp

/-- Witness for C3: a successful call has its corners in the hull, and the
thin-strip input `[(0,0), (1,0), (10,9), (11,9)]` (whose heuristic rectangle
corner `(10,0)` escapes the hull) fails with `BoundsViolation`. -/
theorem minimal_rect_result_in_hull_w :
    inHull [(0,0), (10,0), (10,5), (0,5)] ((0:ℚ), (0:ℚ)) = true ∧
    minimal_rect [(0,0), (1,0), (10,9), (11,9)] "tl" false =
      .error .boundsViolation := by
  constructor
  · exact (minimal_rect_result_in_hull [(0,0), (10,0), (10,5), (0,5)]
      "tl" false).1 [(0,0), (10,0), (10,5), (0,5)] (by decide) (0,0) (by decide)
  · exact (minimal_rect_result_in_hull [(0,0), (1,0), (10,9), (11,9)]
      "tl" false).2 (by decide) (by decide) (by decide) (by decide)

/-- C2 (amended): on any successful call with `square = true`, the returned
integer rectangle's width `topRight.x - topLeft.x` and height
`bottomLeft.y - topLeft.y` differ by at most 1 (the real-valued rectangle is
an exact square; interior rounding can shrink the two dimensions by different
amounts below 1). -/
theorem minimal_rect_square_within_one (pts : List Pt) (bias : String)
    (r : List (ℤ × ℤ)) (h : minimal_rect pts bias true = .ok r) :
    ∃ p0 p1 p2 p3 : ℤ × ℤ, r = [p0, p1, p2, p3] ∧
      (p1.1 - p0.1) - (p3.2 - p0.2) ≤ 1 ∧
      (p3.2 - p0.2) - (p1.1 - p0.1) ≤ 1 := by
  obtain ⟨-, hv, hh, -, hr⟩ := minimal_rect_ok_inversion pts bias true r h
  obtain ⟨x1, x2, y1, y2, hshape⟩ := minimalRectFormula_shape pts
  obtain ⟨a, b, c, d, hsq, hside⟩ := squarify_square_sides x1 x2 y1 y2 bias hv hh
  have hcv : croppedValue pts bias true =
      interior_round (squarify (minimalRectFormula pts) bias) := by
    simp [croppedValue]
  rw [hcv, hshape, hsq, interior_round_rect] at hr
  refine ⟨(qceil a, qceil c), (qfloor b, qceil c), (qfloor b, qfloor d),
    (qceil a, qfloor d), hr, ?_, ?_⟩
  all_goals
    have fb : (qfloor b : ℚ) ≤ b := by rw [ratFloor_eq]; exact Int.floor_le b
    have fb' : b - 1 < (qfloor b : ℚ) := by
      rw [ratFloor_eq]; linarith [Int.lt_floor_add_one b]
    have fd : (qfloor d : ℚ) ≤ d := by rw [ratFloor_eq]; exact Int.floor_le d
    have fd' : d - 1 < (qfloor d : ℚ) := by
      rw [ratFloor_eq]; linarith [Int.lt_floor_add_one d]
    have ca : a ≤ (qceil a : ℚ) := by rw [qceil_eq]; exact Int.le_ceil a
    have ca' : (qceil a : ℚ) < a + 1 := by
      rw [qceil_eq]; exact Int.ceil_lt_add_one a
    have cc : c ≤ (qceil c : ℚ) := by rw [qceil_eq]; exact Int.le_ceil c
    have cc' : (qceil c : ℚ) < c + 1 := by
      rw [qceil_eq]; exact Int.ceil_lt_add_one c
  · have hz : (((qfloor b - qceil a) - (qfloor d - qceil c) : ℤ) : ℚ) < 2 := by
      push_cast
      linarith
    have : ((qfloor b - qceil a) - (qfloor d - qceil c) : ℤ) < 2 := by
      exact_mod_cast hz
    omega
  · have hz : (((qfloor d - qceil c) - (qfloor b - qceil a) : ℤ) : ℚ) < 2 := by
      push_cast
      linarith
    have : ((qfloor d - qceil c) - (qfloor b - qceil a) : ℤ) < 2 := by
      exact_mod_cast hz
    omega

/-- Witness for C2: the 10 by 5 rectangle squared with bias `"tl"`. -/
theorem minimal_rect_square_within_one_w :
    ∃ p0 p1 p2 p3 : ℤ × ℤ,
      ([((0:ℤ),(0:ℤ)), (5,0), (5,5), (0,5)] : List (ℤ × ℤ)) =
        [p0, p1, p2, p3] ∧
      (p1.1 - p0.1) - (p3.2 - p0.2) ≤ 1 ∧
      (p3.2 - p0.2) - (p1.1 - p0.1) ≤ 1 :=
  minimal_rect_square_within_one [(0,0), (10,0), (10,5), (0,5)] "tl"
    [(0,0), (5,0), (5,5), (0,5)] (by decide)

/-- C4 (amended): the solver fails with `UnsupportedPointCount` exactly when
the number of distinct input points differs from 4 — whatever the bias string
(the count check comes first); a raw list of 5 or more entries whose distinct
count is 4 is accepted. -/
theorem minimal_rect_unsupported_iff (pts : List Pt) (bias : String)
    (square : Bool) :
    minimal_rect pts bias square = .error .unsupportedPointCount ↔
      pts.dedup.length ≠ 4 := by
  constructor
  · intro h
    by_contra hne
    have hne' : pts.dedup.length = 4 := hne
    unfold minimal_rect at h
    rw [if_neg (not_ne_iff.mpr hne')] at h
    split_ifs at h <;> simp_all
  · intro hne
    unfold minimal_rect
    rw [if_pos hne]

/-- Witness for C4: three distinct points are rejected with
`UnsupportedPointCount` even though the bias string is invalid. -/
theorem minimal_rect_unsupported_iff_w :
    minimal_rect [(0,0), (1,0), (0,1)] "xy" false =
      .error .unsupportedPointCount :=
  (minimal_rect_unsupported_iff [(0,0), (1,0), (0,1)] "xy" false).mpr
    (by decide)

/-- C8 (amended): for an input of 4 distinct points, the solver fails with
`InvalidBiasSpec` exactly when the bias string fails the code's presence
check — exactly one of `'t'`, `'b'` occurring (at least once) and exactly one
of `'l'`, `'r'` occurring; repeated occurrences of the same token are still
accepted, so `"xy"`, `"tb"`, `""`, `"tlr"` fail but `"ttl"` does not. -/
theorem minimal_rect_invalid_bias_iff (pts : List Pt) (bias : String)
    (square : Bool) (h4 : pts.dedup.length = 4) :
    minimal_rect pts bias square = .error .invalidBiasSpec ↔
      codeBiasValid bias = false := by
  unfold minimal_rect
  rw [if_neg (not_ne_iff.mpr h4)]
  cases hv : vertBiasOk bias
  · simp [codeBiasValid, hv]
  · cases hh : horizBiasOk bias
    · simp [codeBiasValid, hv, hh]
    · simp only [codeBiasValid, hv, hh, Bool.and_self, Bool.true_and]
      rw [if_neg (by simp), if_neg (by simp),
        if_neg (by simp [convexityCheckFails_eq_false])]
      split <;> simp

/-- Witness for C8: the bias strings of the claim are all rejected on a
4-point input. -/
theorem minimal_rect_invalid_bias_iff_w :
    minimal_rect [(0,0), (10,0), (10,5), (0,5)] "xy" false =
      .error .invalidBiasSpec ∧
    minimal_rect [(0,0), (10,0), (10,5), (0,5)] "tb" false =
      .error .invalidBiasSpec ∧
    minimal_rect [(0,0), (10,0), (10,5), (0,5)] "" false =
      .error .invalidBiasSpec ∧
    minimal_rect [(0,0), (10,0), (10,5), (0,5)] "tlr" false =
      .error .invalidBiasSpec := by
  refine ⟨?_, ?_, ?_, ?_⟩ <;>
    exact (minimal_rect_invalid_bias_iff [(0,0), (10,0), (10,5), (0,5)] _
      false (by decide)).mpr (by decide)

/-- C10: with `square = false` the bias string is only validated; any two
valid bias strings produce identical results. -/
theorem minimal_rect_bias_unused_without_square (pts : List Pt)
    (b1 b2 : String) (h1 : codeBiasValid b1 = true)
    (h2 : codeBiasValid b2 = true) :
    minimal_rect pts b1 false = minimal_rect pts b2 false := by
  unfold codeBiasValid at h1 h2
  rw [Bool.and_eq_true] at h1 h2
  obtain ⟨hv1, hh1⟩ := h1
  obtain ⟨hv2, hh2⟩ := h2
  by_cases h4 : pts.dedup.length = 4
  · rw [minimal_rect_checks_passed pts b1 false h4 hv1 hh1,
      minimal_rect_checks_passed pts b2 false h4 hv2 hh2]
    have e : croppedValue pts b1 false = croppedValue pts b2 false := rfl
    rw [e]
  · unfold minimal_rect
    rw [if_pos h4, if_pos h4]

/-- Witness for C10: biases `"tl"` and `"br"` agree when `square = false`. -/
theorem minimal_rect_bias_unused_without_square_w :
    minimal_rect [(0,0), (10,0), (10,5), (0,5)] "tl" false =
      minimal_rect [(0,0), (10,0), (10,5), (0,5)] "br" false :=
  minimal_rect_bias_unused_without_square [(0,0), (10,0), (10,5), (0,5)]
    "tl" "br" (by decide) (by decide)

/-- C5: for a 4-point input, the pre-squarify rectangle is exactly
`[(x1,y1), (x2,y1), (x2,y2), (x1,y2)]` — clockwise from top-left — where `x1`
is a 2nd-smallest and `x2` a 2nd-largest of the four x-coordinates, and
likewise `y1`, `y2` for the y-coordinates (the single most extreme coordinate
on each side is discarded). -/
theorem minimalRect_second_extremes (pts : List Pt) (h : pts.length = 4) :
    ∃ x1 x2 y1 y2 : ℚ,
      minimalRectFormula pts = [(x1, y1), (x2, y1), (x2, y2), (x1, y2)] ∧
      x1 ≤ x2 ∧ y1 ≤ y2 ∧
      isSecondSmallest (pts.map Prod.fst) x1 ∧
      isSecondLargest (pts.map Prod.fst) x2 ∧
      isSecondSmallest (pts.map Prod.snd) y1 ∧
      isSecondLargest (pts.map Prod.snd) y2 := by
  have hx : (pts.map Prod.fst).length = 4 := by simp [h]
  have hy : (pts.map Prod.snd).length = 4 := by simp [h]
  obtain ⟨sx1, sx2, lx⟩ := second_extremes_of_sort (pts.map Prod.fst) hx
  obtain ⟨sy1, sy2, ly⟩ := second_extremes_of_sort (pts.map Prod.snd) hy
  refine ⟨_, _, _, _, ?_, lx, ly, sx1, sx2, sy1, sy2⟩
  have e1 : ((pts.map Prod.fst).insertionSort (· ≤ ·)).length = 4 := by
    rw [(List.perm_insertionSort _ _).length_eq]
    exact hx
  have e2 : ((pts.map Prod.snd).insertionSort (· ≤ ·)).length = 4 := by
    rw [(List.perm_insertionSort _ _).length_eq]
    exact hy
  simp only [minimalRectFormula, e1, e2]

/-- Witness for C5: the mildly skewed convex quadrilateral of the
specification's concrete scenario. -/
theorem minimalRect_second_extremes_w :
    ∃ x1 x2 y1 y2 : ℚ,
      minimalRectFormula [(1.2,1.7), (9.3,1.1), (9.8,5.6), (0.9,5.9)] =
        [(x1, y1), (x2, y1), (x2, y2), (x1, y2)] ∧
      x1 ≤ x2 ∧ y1 ≤ y2 ∧
      isSecondSmallest
        (([(1.2,1.7), (9.3,1.1), (9.8,5.6), (0.9,5.9)] : List Pt).map
          Prod.fst) x1 ∧
      isSecondLargest
        (([(1.2,1.7), (9.3,1.1), (9.8,5.6), (0.9,5.9)] : List Pt).map
          Prod.fst) x2 ∧
      isSecondSmallest
        (([(1.2,1.7), (9.3,1.1), (9.8,5.6), (0.9,5.9)] : List Pt).map
          Prod.snd) y1 ∧
      isSecondLargest
        (([(1.2,1.7), (9.3,1.1), (9.8,5.6), (0.9,5.9)] : List Pt).map
          Prod.snd) y2 :=
  minimalRect_second_extremes [(1.2,1.7), (9.3,1.1), (9.8,5.6), (0.9,5.9)]
    (by decide)

/-- C7: on an axis-aligned rectangle given clockwise from top-left, the
rounding step ceils both left-edge x values and both top-edge y values, and
floors both right-edge x values and both bottom-edge y values; consequently
the integer rectangle's region is contained in the real-valued one. -/
theorem interior_round_toward_interior (p0 p1 p2 p3 : Pt)
    (e1 : p0.2 = p1.2) (e2 : p3.2 = p2.2) (e3 : p0.1 = p3.1)
    (e4 : p1.1 = p2.1) :
    interior_round [p0, p1, p2, p3] =
      [(⌈p0.1⌉, ⌈p0.2⌉), (⌊p1.1⌋, ⌈p1.2⌉),
       (⌊p2.1⌋, ⌊p2.2⌋), (⌈p3.1⌉, ⌊p3.2⌋)] ∧
    (∀ x y : ℚ, (⌈p0.1⌉ : ℚ) ≤ x → x ≤ (⌊p1.1⌋ : ℚ) →
      (⌈p0.2⌉ : ℚ) ≤ y → y ≤ (⌊p3.2⌋ : ℚ) →
      p0.1 ≤ x ∧ x ≤ p1.1 ∧ p0.2 ≤ y ∧ y ≤ p3.2) := by
  constructor
  · simp only [interior_round]
    rw [qfloor_intCast]
    simp [ratFloor_eq, qceil_eq, e4]
  · intro x y hx1 hx2 hy1 hy2
    exact ⟨le_trans (Int.le_ceil p0.1) hx1, le_trans hx2 (Int.floor_le p1.1),
      le_trans (Int.le_ceil p0.2) hy1, le_trans hy2 (Int.floor_le p3.2)⟩

/-- Witness for C7: a fractional axis-aligned rectangle rounds to the
expected integer corners. -/
theorem interior_round_toward_interior_w :
    interior_round [(0.5,0.25), (2.5,0.25), (2.5,1.75), (0.5,1.75)] =
      [(1,1), (2,1), (2,1), (1,1)] := by
  have h := (interior_round_toward_interior (0.5,0.25) (2.5,0.25)
    (2.5,1.75) (0.5,1.75) rfl rfl rfl rfl).1
  rw [h]
  simp only [← qceil_eq, ← ratFloor_eq]
  decide

/-- C9: `_squarify` is the identity on axis-aligned clockwise rectangles that
are already squares (`hlen = vlen`), for every bias accepted by the solver. -/
theorem squarify_identity_on_squares (p0 p1 p2 p3 : Pt) (bias : String)
    (e1 : p0.2 = p1.2) (e2 : p3.2 = p2.2) (e3 : p0.1 = p3.1)
    (e4 : p1.1 = p2.1) (hsq : p1.1 - p0.1 = p3.2 - p0.2)
    (hv : vertBiasOk bias = true) (hh : horizBiasOk bias = true) :
    squarify [p0, p1, p2, p3] bias = [p0, p1, p2, p3] := by
  simp only [squarify]
  rw [if_neg (by rw [hsq]; exact lt_irrefl _)]
  rcases horiz_cases bias hh with ⟨hl, hr⟩ | ⟨hl, hr⟩
  · have a1 : p0.1 + (p3.2 - p0.2) = p1.1 := by rw [← hsq]; ring
    have a2 : p3.1 + (p3.2 - p0.2) = p2.1 := by rw [← e4, ← hsq, e3]; ring
    simp [hl, hr, a1, a2]
  · have a1 : p1.1 - (p3.2 - p0.2) = p0.1 := by rw [← hsq]; ring
    have a2 : p2.1 - (p3.2 - p0.2) = p3.1 := by rw [← e4, ← hsq, e3]; ring
    simp [hl, hr, a1, a2]

/-- Witness for C9: a 5 by 5 square is unchanged by `_squarify`. -/
theorem squarify_identity_on_squares_w :
    squarify [(0,0), (5,0), (5,5), (0,5)] "tl" = [(0,0), (5,0), (5,5), (0,5)] :=
  squarify_identity_on_squares (0,0) (5,0) (5,5) (0,5) "tl"
    rfl rfl rfl rfl (by norm_num) (by decide) (by decide)

end Quickcrop
